import Mathlib

/-!
Verification of `upload_script.py` (a one-shot batch job that rewrites a URL
list file, migrating Google Drive links to GitHub release asset links).

The Python source is shallowly embedded: Python strings become `String`
(with the char-level work done on `String.data : List Char`), external HTTP
interactions become explicit oracle values (`MetaResp`, `DriveEnv`), the
random suffix generator and the clock become oracle parameters, and the
filesystem side effects of the per-line loop are recorded as an explicit
`Event` trace.
-/

set_option maxHeartbeats 1000000

namespace DriveUploader

/-- Character class `[a-zA-Z0-9_-]` used both by the three extraction
regexes in `extract_drive_file_id` and (complemented) by the
`re.sub(r'[^a-zA-Z0-9_-]', '_', ...)` sanitiser in `process_drive_file`. -/
def isIdChar (c : Char) : Bool :=
  c.isAlpha || c.isDigit || c == '_' || c == '-'

/-- ASCII whitespace characters removed by Python `str.strip()`. -/
def isSpace (c : Char) : Bool :=
  c == ' ' || c == '\t' || c == '\n' || c == '\r' || c == '\x0b' || c == '\x0c'

/-- Characters surviving `str.strip()`: leading and trailing whitespace
removed. -/
def stripChars (l : List Char) : List Char :=
  ((l.dropWhile isSpace).reverse.dropWhile isSpace).reverse

/-- Model of Python `s.strip()`. -/
def pyStrip (s : String) : String :=
  String.mk (stripChars s.data)

/-- If `hay` starts with the literal `lit`, return the remainder of `hay`
after it. -/
def dropLit : List Char → List Char → Option (List Char)
  | [], l => some l
  | _ :: _, [] => none
  | a :: as, b :: bs => if a = b then dropLit as bs else none

/-- Does `hay` start with the literal `needle`? -/
def litHere (needle hay : List Char) : Bool :=
  match dropLit needle hay with
  | some _ => true
  | none => false

/-- Substring scan: does `needle` occur contiguously anywhere in the list? -/
def subOf (needle : List Char) : List Char → Bool
  | [] => needle.isEmpty
  | c :: rest => litHere needle (c :: rest) || subOf needle rest

/-- Model of Python substring membership `needle in hay` on strings. -/
def strContains (hay needle : String) : Bool :=
  subOf needle.data hay.data

/-- Greedy maximal run of `[a-zA-Z0-9_-]` characters, the capture of the
`([a-zA-Z0-9_-]+)` group. -/
def takeIdRun : List Char → List Char
  | [] => []
  | c :: rest => if isIdChar c then c :: takeIdRun rest else []

/-- Model of `re.search(lit + r"([a-zA-Z0-9_-]+)", s)`: find the leftmost
position where the literal `lit` occurs immediately followed by at least one
identifier character, and return the greedy capture; `none` when no position
matches. -/
def searchLitId (lit : List Char) : List Char → Option (List Char)
  | [] => none
  | c :: rest =>
    match dropLit lit (c :: rest) with
    | some (r :: rs) =>
      if isIdChar r then some (takeIdRun (r :: rs)) else searchLitId lit rest
    | _ => searchLitId lit rest

/-- Model of `extract_drive_file_id`: the three patterns
`/file/d/([a-zA-Z0-9_-]+)`, `id=([a-zA-Z0-9_-]+)`, `/d/([a-zA-Z0-9_-]+)`
are tried in this order; the first match wins; `none` when all fail. -/
def extract_drive_file_id (url : String) : Option String :=
  match searchLitId "/file/d/".data url.data with
  | some cap => some (String.mk cap)
  | none =>
    match searchLitId "id=".data url.data with
    | some cap => some (String.mk cap)
    | none =>
      match searchLitId "/d/".data url.data with
      | some cap => some (String.mk cap)
      | none => none

/-- Outcome of the unauthenticated Drive metadata request in
`get_drive_file_info`: either the request raised (`err`), or it returned an
HTTP status together with the optional `name` field of the JSON body. -/
inductive MetaResp where
  | err : MetaResp
  | ok (status : Nat) (name : Option String) : MetaResp
deriving DecidableEq

/-- The synthetic fallback name `f'video_{file_id[:8]}.mp4'`. -/
def fallbackName (file_id : String) : String :=
  "video_" ++ String.mk (file_id.data.take 8) ++ ".mp4"

/-- Model of `get_drive_file_info`: on HTTP 200 return the JSON `name` field
with the synthetic name as `dict.get` default; on any other status or any
exception return the synthetic name. -/
def get_drive_file_info (file_id : String) : MetaResp → String
  | MetaResp.err => fallbackName file_id
  | MetaResp.ok status name =>
    if status = 200 then name.getD (fallbackName file_id) else fallbackName file_id

/-- The collision-avoidance loop of `create_unique_release`, with the random
suffix generator abstracted as the oracle `suffixes : Nat → String` (call
number `idx` returns `suffixes idx`) and `int(time.time())` abstracted as
`ts`.  The Python loop variable `counter` (which starts at `1`, is
incremented each iteration, and forces the `tag_name = f"{base_name}-{int(time.time())}"`
break once `counter > 10`) is represented by the decreasing `fuel`
parameter via `fuel = 11 - counter`; the entry point passes `fuel = 10`, and
the break condition `counter > 10` after the increment is exactly `fuel = 0`
inside the `fuel + 1` body, so the `0` case below is never reached from the
entry point. -/
def tagLoop (existing : List String) (base : String) (suffixes : Nat → String)
    (ts : Nat) : Nat → String → Nat → String
  | 0, tag, _ => tag
  | fuel + 1, tag, idx =>
    if tag ∈ existing then
      if fuel = 0 then base ++ "-" ++ toString ts
      else tagLoop existing base suffixes ts fuel (base ++ "-" ++ suffixes idx) (idx + 1)
    else tag

/-- The tag chosen by `create_unique_release` given the repository's existing
tags (as listed by `get_all_releases`), the desired base tag, the random
suffix oracle and the clock. -/
def create_unique_tag (existing : List String) (base : String)
    (suffixes : Nat → String) (ts : Nat) : String :=
  tagLoop existing base suffixes ts 10 base 0

/-- Model of the final path component computed by `pathlib`: split on `/`,
drop empty and `.` parts, and keep the last part. -/
def splitSlashAux : List Char → List Char → List (List Char)
  | acc, [] => [acc.reverse]
  | acc, c :: rest =>
    if c = '/' then acc.reverse :: splitSlashAux [] rest
    else splitSlashAux (c :: acc) rest

/-- Model of `pathlib.PurePath(s).name` for the file names this script
handles. -/
def pyName (l : List Char) : List Char :=
  (((splitSlashAux [] l).filter (fun p => !p.isEmpty && p != ['.'])).getLast?).getD []

/-- Index of the last `.` in the list (Python `str.rfind('.')`), `none` when
absent. -/
def rfindDotAux : List Char → Nat → Option Nat
  | [], _ => none
  | c :: rest, i =>
    match rfindDotAux rest (i + 1) with
    | some j => some j
    | none => if c = '.' then some i else none

/-- Model of `pathlib.Path(s).stem`: the name without its extension when the
last dot is at an interior position, otherwise the whole name. -/
def pyStem (s : String) : String :=
  let nm := pyName s.data
  match rfindDotAux nm 0 with
  | some i =>
    if 0 < i ∧ i < nm.length - 1 then String.mk (nm.take i) else String.mk nm
  | none => String.mk nm

/-- Model of `pathlib.Path(s).suffix`: the extension including the dot when
the last dot is at an interior position, otherwise the empty string. -/
def pySuffix (s : String) : String :=
  let nm := pyName s.data
  match rfindDotAux nm 0 with
  | some i =>
    if 0 < i ∧ i < nm.length - 1 then String.mk (nm.drop i) else ""
  | none => ""

/-- Model of `re.sub(r'[^a-zA-Z0-9_-]', '_', base_name)[:50]`. -/
def sanitize (s : String) : String :=
  String.mk ((s.data.map (fun c => if isIdChar c then c else '_')).take 50)

/-- Per-line oracle for the external effects of `process_drive_file`: the
metadata response consumed by `get_drive_file_info`, the boolean result of
`download_large_file_from_drive`, the result of `create_unique_release`
(`some id` on HTTP 201, `none` on a non-201 response), and the result of
`upload_to_release` (`some browser_download_url` on HTTP 201, `none`
otherwise).  This is the no-raise view: `create_unique_release` can also
die in an uncaught exception (its `requests.post` at source line 158 is the
one network call not wrapped in `try/except`), which is modelled by the
refinement `DriveEnvExc` below; `processLineExc_agrees` shows this view is
the projection of the refined one whenever that exception does not occur. -/
structure DriveEnv where
  meta : MetaResp
  downloadOk : Bool
  release : Option Nat
  upload : Option String

/-- Filesystem events of one iteration of the main loop: the download
attempt writing the temporary file (with its success flag) and each
`os.remove` of the temporary file. `visited i` records that the loop reached
line `i`. -/
inductive Event where
  | visited (idx : Nat) : Event
  | download (path : String) (ok : Bool) : Event
  | removed (path : String) : Event
deriving DecidableEq

/-- One iteration of the `for idx, line in enumerate(lines, 1)` loop of
`process_drive_file`, for line `l` with oracle `e`: returns the entries
appended to `github_links` (at most one) and the filesystem events of the
iteration, mirroring the source branch for branch under the assumption that
release creation does not raise (see `processLineExc` for the refinement
with the uncaught exception path of source line 158). -/
def processLine (l : String) (e : DriveEnv) : List String × List Event :=
  let t := pyStrip l
  if t = "" then ([], [])
  else if strContains t "github.com" = true then ([t], [])
  else if strContains t "drive.google.com" = false then ([], [])
  else
    match extract_drive_file_id t with
    | none => ([], [])
    | some file_id =>
      let original_name := get_drive_file_info file_id e.meta
      let base_name := pyStem original_name
      let extension := if pySuffix original_name = "" then ".mp4" else pySuffix original_name
      let safe_name := sanitize base_name
      let filename := safe_name ++ extension
      let temp_path := "temp_videos/" ++ filename
      if e.downloadOk = false then ([], [Event.download temp_path false])
      else
        match e.release with
        | none => ([], [Event.download temp_path true, Event.removed temp_path])
        | some _ =>
          match e.upload with
          | some url => ([url], [Event.download temp_path true, Event.removed temp_path])
          | none => ([], [Event.download temp_path true, Event.removed temp_path])

/-- The whole `for` loop over the lines, threading the absolute line index
used to select each line's oracle; collects the surviving links and the
event trace in order. -/
def runLinesGo (env : Nat → DriveEnv) : List String → Nat → List String × List Event
  | [], _ => ([], [])
  | l :: ls, i =>
    let r := processLine l (env i)
    let rest := runLinesGo env ls (i + 1)
    (r.1 ++ rest.1, (Event.visited i :: r.2) ++ rest.2)

/-- The loop of `process_drive_file` over the full line list. -/
def runLines (lines : List String) (env : Nat → DriveEnv) : List String × List Event :=
  runLinesGo env lines 0

/-- Model of `f.readlines()`: split the file content into lines, each line
keeping its terminating newline; a final segment without a newline is kept
iff nonempty. -/
def splitKeepAux : List Char → List Char → List (List Char)
  | acc, [] => if acc.isEmpty then [] else [acc.reverse]
  | acc, c :: rest =>
    if c = '\n' then (acc.reverse ++ ['\n']) :: splitKeepAux [] rest
    else splitKeepAux (c :: acc) rest

/-- The lines of the input file as read by `f.readlines()`. -/
def pyReadLines (content : String) : List String :=
  (splitKeepAux [] content.data).map String.mk

/-- Concatenation of a list of strings, modelling the sequential
`f.write(link + '\n')` calls. -/
def joinAll : List String → String
  | [] => ""
  | s :: rest => s ++ joinAll rest

/-- The file content written back at the end of the run: every surviving
link followed by a newline. -/
def runOutput (content : String) (env : Nat → DriveEnv) : String :=
  joinAll (((runLines (pyReadLines content) env).1).map (fun l => l ++ "\n"))

/-- Outcome of the `requests.post` that `create_unique_release` issues at
source line 158.  Unlike every other network call of the script (metadata
lookup, download, release listing, upload), this one is not wrapped in
`try/except`, so beside the handled cases — HTTP 201 (`created id`) and any
other status (`httpError`, logged and the line skipped) — the request can
raise (`exc`), and that exception propagates out of the loop and kills the
whole run. -/
inductive ReleaseOutcome where
  | created (id : Nat) : ReleaseOutcome
  | httpError : ReleaseOutcome
  | exc : ReleaseOutcome
deriving DecidableEq

/-- Per-line oracle that keeps all three release-creation outcomes,
refining `DriveEnv`. -/
structure DriveEnvExc where
  meta : MetaResp
  downloadOk : Bool
  release : ReleaseOutcome
  upload : Option String

/-- The `Option` view of the handled release outcomes: `created id ↦ some id`,
`httpError ↦ none` (the `exc` case is outside this view). -/
def ReleaseOutcome.toOption : ReleaseOutcome → Option Nat
  | ReleaseOutcome.created id => some id
  | ReleaseOutcome.httpError => none
  | ReleaseOutcome.exc => none

/-- Projection of the refined oracle to the no-raise oracle. -/
def DriveEnvExc.proj (e : DriveEnvExc) : DriveEnv :=
  ⟨e.meta, e.downloadOk, e.release.toOption, e.upload⟩

/-- Refinement of `processLine` keeping the uncaught exception path of
`create_unique_release`: a first component of `none` means the iteration
raised (the unguarded `requests.post` at source line 158), which aborts the
run; otherwise it lists the entries appended to `github_links`.  The second
component is the iteration's filesystem trace up to the raise — note that
on a raise the downloaded temporary file is not removed. -/
def processLineExc (l : String) (e : DriveEnvExc) : Option (List String) × List Event :=
  let t := pyStrip l
  if t = "" then (some [], [])
  else if strContains t "github.com" = true then (some [t], [])
  else if strContains t "drive.google.com" = false then (some [], [])
  else
    match extract_drive_file_id t with
    | none => (some [], [])
    | some file_id =>
      let original_name := get_drive_file_info file_id e.meta
      let base_name := pyStem original_name
      let extension := if pySuffix original_name = "" then ".mp4" else pySuffix original_name
      let safe_name := sanitize base_name
      let filename := safe_name ++ extension
      let temp_path := "temp_videos/" ++ filename
      if e.downloadOk = false then (some [], [Event.download temp_path false])
      else
        match e.release with
        | ReleaseOutcome.exc => (none, [Event.download temp_path true])
        | ReleaseOutcome.httpError =>
          (some [], [Event.download temp_path true, Event.removed temp_path])
        | ReleaseOutcome.created _ =>
          match e.upload with
          | some url =>
            (some [url], [Event.download temp_path true, Event.removed temp_path])
          | none =>
            (some [], [Event.download temp_path true, Event.removed temp_path])

/-- The loop with the exception path: a raising iteration stops the loop —
the remaining lines are never visited — and poisons the result, so the
write-back after the loop never executes. -/
def runLinesExcGo (env : Nat → DriveEnvExc) :
    List String → Nat → Option (List String) × List Event
  | [], _ => (some [], [])
  | l :: ls, i =>
    let r := processLineExc l (env i)
    match r.1 with
    | none => (none, Event.visited i :: r.2)
    | some out =>
      let rest := runLinesExcGo env ls (i + 1)
      (rest.1.map (fun links => out ++ links), (Event.visited i :: r.2) ++ rest.2)

/-- Model of `process_drive_file` at the whole-run level: `none` when the
input file is missing (abort before any line, no write-back); otherwise the
loop result, whose first component is `none` exactly when some iteration
raised — in which case the rewrite of the list file never happens. -/
def process_drive_file (fileExists : Bool) (content : String)
    (env : Nat → DriveEnvExc) : Option (Option (List String) × List Event) :=
  if fileExists = false then none
  else some (runLinesExcGo env (pyReadLines content) 0)

/-- All-failure oracle used for concrete instances. -/
def envNone : Nat → DriveEnv := fun _ => ⟨MetaResp.err, false, none, none⟩

/-- Oracle where every download succeeds and every release-creation POST
raises. -/
def envRelExc : Nat → DriveEnvExc :=
  fun _ => ⟨MetaResp.err, true, ReleaseOutcome.exc, none⟩

/-- Oracle where every download succeeds and every release creation fails
with a handled non-201 response. -/
def envRelHttp : Nat → DriveEnvExc :=
  fun _ => ⟨MetaResp.err, true, ReleaseOutcome.httpError, none⟩

/-- Pointwise projection of a refined oracle. -/
def projEnv (env : Nat → DriveEnvExc) : Nat → DriveEnv :=
  fun j => (env j).proj

/-- The failure cases of the metadata lookup named by the spec: a raised
exception, a non-200 status, or a 200 response whose JSON lacks the `name`
field. -/
def metaFailed : MetaResp → Prop
  | MetaResp.err => True
  | MetaResp.ok status name => status ≠ 200 ∨ name = none

/-- Every branch of the tag loop either exits with a tag that passed the
collision check, or exits through the timestamp fallback, which is not
rechecked. -/
theorem tagLoop_cases (existing : List String) (base : String)
    (suffixes : Nat → String) (ts : Nat) :
    ∀ (fuel : Nat) (tag : String) (idx : Nat), 1 ≤ fuel →
      tagLoop existing base suffixes ts fuel tag idx ∉ existing ∨
      tagLoop existing base suffixes ts fuel tag idx = base ++ "-" ++ toString ts := by
  intro fuel
  induction fuel with
  | zero => intro tag idx h; exact absurd h (by decide)
  | succ f ih =>
    intro tag idx _
    by_cases hmem : tag ∈ existing
    · by_cases hf : f = 0
      · right; simp [tagLoop, hmem, hf]
      · have hstep := ih (base ++ "-" ++ suffixes idx) (idx + 1) (Nat.one_le_iff_ne_zero.mpr hf)
        simpa [tagLoop, hmem, hf] using hstep
    · left; simp [tagLoop, hmem]

/-- C2 (counterexample): with existing tags `["v", "v-aaaaaa", "v-5"]`, base
tag `"v"`, a suffix oracle that always returns `"aaaaaa"` and clock value
`5`, the loop exhausts its 10 attempts and falls back to the timestamp tag
`"v-5"`, which is never rechecked and equals an existing tag — so the
generated tag does not differ from all existing tags. -/
theorem c2_counterexample :
    create_unique_tag ["v", "v-aaaaaa", "v-5"] "v" (fun _ => "aaaaaa") 5 ∈
      ["v", "v-aaaaaa", "v-5"] := by decide

/-- C2 (amended): the generated tag either differs from all existing tags
(when the loop exits through its collision check) or is the timestamp
fallback `base-<unix-time>`, which is produced after the bounded retries
without being rechecked against the existing tags and may therefore still
collide. -/
theorem c2_generated_tag_unique_or_fallback (existing : List String)
    (base : String) (suffixes : Nat → String) (ts : Nat) :
    create_unique_tag existing base suffixes ts ∉ existing ∨
    create_unique_tag existing base suffixes ts = base ++ "-" ++ toString ts :=
  tagLoop_cases existing base suffixes ts 10 base 0 (by decide)

/-- C8: whenever the metadata lookup fails — exception, non-200 status, or
missing `name` field — the resolver returns the synthetic name built from
the identifier's first 8 characters plus the default video extension. -/
theorem c8_metadata_fallback (file_id : String) (r : MetaResp)
    (h : metaFailed r) :
    get_drive_file_info file_id r =
      "video_" ++ String.mk (file_id.data.take 8) ++ ".mp4" := by
  cases r with
  | err => rfl
  | ok status name =>
    rcases h with hs | hn
    · simp [get_drive_file_info, fallbackName, hs]
    · subst hn; simp [get_drive_file_info, fallbackName]

/-- C8 witness: a concrete non-200 lookup falls back to
`video_ABCDEFGH.mp4`. -/
theorem c8_metadata_fallback_witness :
    get_drive_file_info "ABCDEFGHIJ" (MetaResp.ok 404 (some "My Movie.mkv")) =
      "video_" ++ String.mk ("ABCDEFGHIJ".data.take 8) ++ ".mp4" :=
  c8_metadata_fallback "ABCDEFGHIJ" (MetaResp.ok 404 (some "My Movie.mkv"))
    (Or.inl (by decide))

/-- A line whose stripped form contains `github.com` is kept in stripped
form, with no Drive processing and no filesystem effect. -/
theorem processLine_github_keep (l : String) (e : DriveEnv)
    (h : strContains (pyStrip l) "github.com" = true) :
    processLine l e = ([pyStrip l], []) := by
  have hne : ¬ pyStrip l = "" := by
    intro he
    rw [he] at h
    exact absurd h (by decide)
  simp [processLine, hne, h]

/-- C9: line classification is substring membership on the stripped line and
the GitHub check precedes the Drive check — any line whose stripped form
contains `github.com` is kept as-is, with no URL validation and no Drive
processing, even if it also contains `drive.google.com` or is not a URL. -/
theorem c9_github_check_precedes (l : String) (e : DriveEnv)
    (h : strContains (pyStrip l) "github.com" = true) :
    processLine l e = ([pyStrip l], []) :=
  processLine_github_keep l e h

/-- C9 witness: a line containing both `drive.google.com` and `github.com`
is kept unchanged (stripped) with no events. -/
theorem c9_github_check_precedes_witness :
    processLine " https://drive.google.com/x github.com" (envNone 0) =
      ([pyStrip " https://drive.google.com/x github.com"], []) :=
  c9_github_check_precedes " https://drive.google.com/x github.com" (envNone 0)
    (by decide)

/-- Each loop iteration appends at most one entry to the output list. -/
theorem processLine_length_le (l : String) (e : DriveEnv) :
    (processLine l e).1.length ≤ 1 := by
  simp only [processLine]
  repeat' split
  all_goals simp

/-- The output of the loop has at most one entry per input line. -/
theorem runLinesGo_length_le (env : Nat → DriveEnv) :
    ∀ (lines : List String) (i : Nat),
      ((runLinesGo env lines i).1).length ≤ lines.length := by
  intro lines
  induction lines with
  | nil => intro i; simp [runLinesGo]
  | cons l ls ih =>
    intro i
    simp only [runLinesGo, List.length_append, List.length_cons]
    have h1 := processLine_length_le l (env i)
    have h2 := ih (i + 1)
    omega

/-- C10: the rewritten list never has more lines than the input file — each
output line originates from exactly one input line. -/
theorem c10_output_length_le (content : String) (env : Nat → DriveEnv) :
    ((runLines (pyReadLines content) env).1).length ≤
      (pyReadLines content).length :=
  runLinesGo_length_le env (pyReadLines content) 0

/-- The filesystem trace of one iteration is empty, a failed download with
no removal, or a successful download followed by a removal of the same
path. -/
theorem processLine_events_shape (l : String) (e : DriveEnv) :
    (processLine l e).2 = [] ∨
    (∃ q, (processLine l e).2 = [Event.download q false]) ∨
    (∃ q, (processLine l e).2 = [Event.download q true, Event.removed q]) := by
  simp only [processLine]
  repeat' split
  all_goals first
    | (left; rfl)
    | (right; left; exact ⟨_, rfl⟩)
    | (right; right; exact ⟨_, rfl⟩)

/-- C5 (counterexample): for a Drive line whose download fails, the loop
moves on without removing the temporary file — the trace of the run holds a
download attempt and no removal. -/
theorem c5_counterexample :
    (runLines (pyReadLines "https://drive.google.com/file/d/ABC/view\n") envNone).2 =
      [Event.visited 0, Event.download "temp_videos/video_ABC.mp4" false] ∧
    Event.removed "temp_videos/video_ABC.mp4" ∉
      (runLines (pyReadLines "https://drive.google.com/file/d/ABC/view\n") envNone).2 := by
  exact ⟨by decide, by decide⟩

/-- C5 (amended): for every Drive line whose download succeeds, the
temporary file is removed before the loop moves to the next line, whatever
the release-creation and upload outcomes; on a failed download no removal is
attempted. -/
theorem c5_remove_after_successful_download (l : String) (e : DriveEnv)
    (p : String) (h : Event.download p true ∈ (processLine l e).2) :
    Event.removed p ∈ (processLine l e).2 := by
  rcases processLine_events_shape l e with h0 | ⟨q, hq⟩ | ⟨q, hq⟩
  · rw [h0] at h; simp at h
  · rw [hq] at h; simp at h
  · rw [hq] at h ⊢
    simp at h
    simp [h]

/-- C5 witness: a successful download whose release creation fails still
ends with the temporary file removed. -/
theorem c5_remove_after_successful_download_witness :
    Event.removed "temp_videos/video_ABC.mp4" ∈
      (processLine "https://drive.google.com/file/d/ABC/view"
        ⟨MetaResp.err, true, none, none⟩).2 :=
  c5_remove_after_successful_download "https://drive.google.com/file/d/ABC/view"
    ⟨MetaResp.err, true, none, none⟩ "temp_videos/video_ABC.mp4" (by decide)

/-- Every entry appended by one loop iteration is either the stripped line
itself with `github.com` in it, or the URL returned by that line's
successful upload (download succeeded and release creation succeeded). -/
theorem processLine_out_cases (l : String) (e : DriveEnv) (out : String)
    (h : out ∈ (processLine l e).1) :
    (out = pyStrip l ∧ strContains out "github.com" = true) ∨
    (e.downloadOk = true ∧ e.release.isSome = true ∧ e.upload = some out) := by
  simp only [processLine] at h
  split at h
  · simp at h
  · split at h
    · rename_i hgh
      simp at h
      subst h
      exact Or.inl ⟨rfl, hgh⟩
    · split at h
      · simp at h
      · split at h
        · simp at h
        · split at h
          · simp at h
          · rename_i hdl
            split at h
            · simp at h
            · rename_i rid hrel
              split at h
              · rename_i url hup
                simp at h
                subst h
                refine Or.inr ⟨?_, ?_, hup⟩
                · simpa using hdl
                · rw [hrel]; rfl
              · simp at h

/-- Whole-loop version of `processLine_out_cases`. -/
theorem runLinesGo_out_cases (env : Nat → DriveEnv) :
    ∀ (lines : List String) (i : Nat) (out : String),
      out ∈ (runLinesGo env lines i).1 →
      (∃ l, l ∈ lines ∧ out = pyStrip l ∧ strContains out "github.com" = true) ∨
      (∃ j, (env j).downloadOk = true ∧ (env j).release.isSome = true ∧
        (env j).upload = some out) := by
  intro lines
  induction lines with
  | nil => intro i out h; simp [runLinesGo] at h
  | cons l ls ih =>
    intro i out h
    simp only [runLinesGo] at h
    rcases List.mem_append.mp h with h1 | h2
    · rcases processLine_out_cases l (env i) out h1 with ⟨he, hg⟩ | hb
      · exact Or.inl ⟨l, List.mem_cons_self l ls, he, hg⟩
      · exact Or.inr ⟨i, hb⟩
    · rcases ih (i + 1) out h2 with ⟨l2, hl2, he, hg⟩ | hb
      · exact Or.inl ⟨l2, List.mem_cons_of_mem l hl2, he, hg⟩
      · exact Or.inr hb

/-- C1: every line written back to the list file is either an original line
(in stripped form) containing `github.com`, or the release asset URL
returned by a successful upload for some line whose download and release
creation succeeded — never anything else. -/
theorem c1_output_provenance (content : String) (env : Nat → DriveEnv)
    (out : String) (h : out ∈ (runLines (pyReadLines content) env).1) :
    (∃ l, l ∈ pyReadLines content ∧ out = pyStrip l ∧
      strContains out "github.com" = true) ∨
    (∃ j, (env j).downloadOk = true ∧ (env j).release.isSome = true ∧
      (env j).upload = some out) :=
  runLinesGo_out_cases env (pyReadLines content) 0 out h

/-- C1 witness at a one-line already-migrated file. -/
theorem c1_output_provenance_witness :
    (∃ l, l ∈ pyReadLines "https://github.com/a\n" ∧
      "https://github.com/a" = pyStrip l ∧
      strContains "https://github.com/a" "github.com" = true) ∨
    (∃ j, (envNone j).downloadOk = true ∧ (envNone j).release.isSome = true ∧
      (envNone j).upload = some "https://github.com/a") :=
  c1_output_provenance "https://github.com/a\n" envNone "https://github.com/a"
    (by decide)

/-- Any member line whose stripped form contains `github.com` shows up
(stripped) in the loop's output, whatever happens to the other lines. -/
theorem runLinesGo_github_mem (env : Nat → DriveEnv) :
    ∀ (lines : List String) (i : Nat) (l : String),
      l ∈ lines → strContains (pyStrip l) "github.com" = true →
      pyStrip l ∈ (runLinesGo env lines i).1 := by
  intro lines
  induction lines with
  | nil => intro i l hl _; exact absurd hl (List.not_mem_nil l)
  | cons a as ih =>
    intro i l hl hg
    simp only [runLinesGo]
    rcases List.mem_cons.mp hl with rfl | hmem
    · rw [processLine_github_keep l (env i) hg]
      exact List.mem_append.mpr (Or.inl (List.mem_singleton.mpr rfl))
    · exact List.mem_append.mpr (Or.inr (ih (i + 1) l hmem hg))

/-- C3: any input line already containing `github.com` is passed through
(in stripped form) to the output list, regardless of the outcome of every
other line. -/
theorem c3_github_passthrough (content : String) (env : Nat → DriveEnv)
    (l : String) (hl : l ∈ pyReadLines content)
    (hg : strContains (pyStrip l) "github.com" = true) :
    pyStrip l ∈ (runLines (pyReadLines content) env).1 :=
  runLinesGo_github_mem env (pyReadLines content) 0 l hl hg

/-- C3 witness: the GitHub line of a two-line file survives even though the
Drive line before it fails at every stage. -/
theorem c3_github_passthrough_witness :
    pyStrip "https://github.com/a\n" ∈
      (runLines
        (pyReadLines "https://drive.google.com/file/d/Q/v\nhttps://github.com/a\n")
        envNone).1 :=
  c3_github_passthrough
    "https://drive.google.com/file/d/Q/v\nhttps://github.com/a\n" envNone
    "https://github.com/a\n" (by decide) (by decide)

/-- C7 (counterexample): a line containing `drive.google.com` from which no
extraction pattern yields a match can still appear in the output — the
GitHub check runs first, so a line that also contains `github.com` is kept
verbatim. -/
theorem c7_counterexample :
    strContains "https://drive.google.com/github.com" "drive.google.com" = true ∧
    extract_drive_file_id "https://drive.google.com/github.com" = none ∧
    "https://drive.google.com/github.com" ∈
      (runLines (pyReadLines "https://drive.google.com/github.com\n") envNone).1 := by
  exact ⟨by decide, by decide, by decide⟩

/-- C7 (amended): for any input line containing `drive.google.com` but not
`github.com` from which none of the three extraction patterns yields a
match, the line is absent from the output list — given that release asset
URLs returned by uploads contain `github.com`, as GitHub's
`browser_download_url` does. -/
theorem c7_unextractable_absent (content : String) (env : Nat → DriveEnv)
    (l : String) (_hmem : l ∈ pyReadLines content)
    (_hdrive : strContains (pyStrip l) "drive.google.com" = true)
    (hgh : strContains (pyStrip l) "github.com" = false)
    (_hex : extract_drive_file_id (pyStrip l) = none)
    (hassets : ∀ j url, (env j).upload = some url →
      strContains url "github.com" = true) :
    pyStrip l ∉ (runLines (pyReadLines content) env).1 := by
  intro hin
  rcases runLinesGo_out_cases env (pyReadLines content) 0 (pyStrip l) hin with
    ⟨l2, _, _, hg⟩ | ⟨j, _, _, hu⟩
  · simp [hg] at hgh
  · have := hassets j (pyStrip l) hu
    simp [this] at hgh

/-- C7 witness: a Drive line with no extractable identifier is dropped. -/
theorem c7_unextractable_absent_witness :
    pyStrip "https://drive.google.com/open?x=1\n" ∉
      (runLines (pyReadLines "https://drive.google.com/open?x=1\n") envNone).1 :=
  c7_unextractable_absent "https://drive.google.com/open?x=1\n" envNone
    "https://drive.google.com/open?x=1\n" (by decide) (by decide) (by decide)
    (by decide) (by intro j url h; simp [envNone] at h)

/-- The loop visits every line: line `i` of the list handed to the loop at
starting index `k` is visited as `k + i`. -/
theorem runLinesGo_visits (env : Nat → DriveEnv) :
    ∀ (lines : List String) (k i : Nat), i < lines.length →
      Event.visited (k + i) ∈ (runLinesGo env lines k).2 := by
  intro lines
  induction lines with
  | nil => intro k i h; exact absurd h (by simp)
  | cons l ls ih =>
    intro k i h
    simp only [runLinesGo]
    cases i with
    | zero =>
      simp only [Nat.add_zero]
      exact List.mem_append.mpr (Or.inl (List.mem_cons_self _ _))
    | succ j =>
      have hj : j < ls.length := by simpa using h
      have hvis := ih (k + 1) j hj
      have heq : k + (j + 1) = (k + 1) + j := by omega
      rw [heq]
      exact List.mem_append.mpr (Or.inr hvis)

/-- When the release-creation POST does not raise, the refined iteration
agrees with the no-raise iteration through the oracle projection: it never
aborts and produces the same entries and the same filesystem trace. -/
theorem processLineExc_agrees (l : String) (e : DriveEnvExc)
    (h : e.release ≠ ReleaseOutcome.exc) :
    processLineExc l e =
      (some (processLine l e.proj).1, (processLine l e.proj).2) := by
  by_cases h0 : pyStrip l = ""
  · simp [processLineExc, processLine, h0]
  · by_cases h1 : strContains (pyStrip l) "github.com" = true
    · simp [processLineExc, processLine, h0, h1]
    · by_cases h2 : strContains (pyStrip l) "drive.google.com" = false
      · simp [processLineExc, processLine, h0, h1, h2]
      · cases hx : extract_drive_file_id (pyStrip l) with
        | none => simp [processLineExc, processLine, h0, h1, h2, hx]
        | some file_id =>
          by_cases hd : e.downloadOk = false
          · simp [processLineExc, processLine, DriveEnvExc.proj, h0, h1, h2, hx, hd]
          · cases hr : e.release with
            | exc => exact absurd hr h
            | httpError =>
              simp [processLineExc, processLine, DriveEnvExc.proj,
                ReleaseOutcome.toOption, h0, h1, h2, hx, hd, hr]
            | created rid =>
              cases hu : e.upload with
              | some url =>
                simp [processLineExc, processLine, DriveEnvExc.proj,
                  ReleaseOutcome.toOption, h0, h1, h2, hx, hd, hr, hu]
              | none =>
                simp [processLineExc, processLine, DriveEnvExc.proj,
                  ReleaseOutcome.toOption, h0, h1, h2, hx, hd, hr, hu]

/-- Whole-loop refinement: if no line's release creation raises, the
refined loop completes and agrees with the no-raise loop. -/
theorem runLinesExcGo_agrees (env : Nat → DriveEnvExc)
    (h : ∀ j, (env j).release ≠ ReleaseOutcome.exc) :
    ∀ (lines : List String) (k : Nat),
      runLinesExcGo env lines k =
        (some (runLinesGo (projEnv env) lines k).1,
         (runLinesGo (projEnv env) lines k).2) := by
  intro lines
  induction lines with
  | nil => intro k; rfl
  | cons l ls ih =>
    intro k
    have hpe := processLineExc_agrees l (env k) (h k)
    simp only [runLinesExcGo, runLinesGo, hpe, ih (k + 1)]
    rfl

/-- C6 (counterexample): a failure of the release-creation stage can abort
the whole run — with the download succeeding and the release-creation POST
raising, the first (Drive) line of a two-line file kills the run: the
result is poisoned (no write-back), the temporary file is left behind, and
the second line — a GitHub line the claim guarantees survives — is never
visited. -/
theorem c6_counterexample :
    (runLinesExcGo envRelExc
      (pyReadLines "https://drive.google.com/file/d/ABC/view\nhttps://github.com/a\n")
      0).1 = none ∧
    (runLinesExcGo envRelExc
      (pyReadLines "https://drive.google.com/file/d/ABC/view\nhttps://github.com/a\n")
      0).2 = [Event.visited 0, Event.download "temp_videos/video_ABC.mp4" true] ∧
    Event.visited 1 ∉
      (runLinesExcGo envRelExc
        (pyReadLines "https://drive.google.com/file/d/ABC/view\nhttps://github.com/a\n")
        0).2 := by
  exact ⟨by decide, by decide, by decide⟩

/-- C6 (amended): no handled per-line failure aborts the run — for every
oracle in which no release-creation POST raises (all combinations of
extraction, metadata, download, release-listing, non-201 release-creation
and upload failures) the run completes, visits every line, and reaches the
write-back; an uncaught exception of the release-creation POST (source line
158) aborts the run, and the only other fatal condition is a missing input
file, which aborts before any line is processed. -/
theorem c6_only_unhandled_release_exception_aborts (fileExists : Bool)
    (content : String) (env : Nat → DriveEnvExc)
    (hnoexc : ∀ j, (env j).release ≠ ReleaseOutcome.exc) :
    (fileExists = false → process_drive_file fileExists content env = none) ∧
    (fileExists = true →
      ∃ links events,
        process_drive_file fileExists content env = some (some links, events) ∧
        ∀ i, i < (pyReadLines content).length → Event.visited i ∈ events) := by
  constructor
  · intro h; simp [process_drive_file, h]
  · intro h
    refine ⟨(runLinesGo (projEnv env) (pyReadLines content) 0).1,
            (runLinesGo (projEnv env) (pyReadLines content) 0).2, ?_, ?_⟩
    · simp [process_drive_file, h]
      exact runLinesExcGo_agrees env hnoexc (pyReadLines content) 0
    · intro i hi
      have hvis := runLinesGo_visits (projEnv env) (pyReadLines content) 0 i hi
      simpa using hvis

/-- C6 witness: a run over a Drive line whose download succeeds but whose
release creation fails with a handled non-201 response still completes and
visits the line. -/
theorem c6_only_unhandled_release_exception_aborts_witness :
    ∃ links events,
      process_drive_file true "https://drive.google.com/file/d/ABC/view\n"
        envRelHttp = some (some links, events) ∧
      ∀ i, i < (pyReadLines "https://drive.google.com/file/d/ABC/view\n").length →
        Event.visited i ∈ events :=
  (c6_only_unhandled_release_exception_aborts true
    "https://drive.google.com/file/d/ABC/view\n" envRelHttp
    (fun j => by simp [envRelHttp])).2 rfl

/-- Two strings with the same character data are equal. -/
theorem string_eq_of_data (a b : String) (h : a.data = b.data) : a = b := by
  cases a; cases b; cases h; rfl

/-- `dropWhile` never lengthens a list. -/
theorem dropWhile_length_le (p : Char → Bool) :
    ∀ l : List Char, (l.dropWhile p).length ≤ l.length := by
  intro l
  induction l with
  | nil => simp
  | cons c cs ih =>
    rw [List.dropWhile_cons]
    split
    · exact Nat.le_succ_of_le ih
    · simp

/-- A `dropWhile` that preserves the length drops nothing. -/
theorem dropWhile_eq_self_of_length (p : Char → Bool) (l : List Char)
    (h : (l.dropWhile p).length = l.length) : l.dropWhile p = l := by
  cases l with
  | nil => rfl
  | cons c cs =>
    by_cases hp : p c = true
    · exfalso
      rw [List.dropWhile_cons] at h
      simp only [hp, if_true] at h
      have hle := dropWhile_length_le p cs
      simp at h
      omega
    · rw [List.dropWhile_cons]
      simp [hp]

/-- A strip-invariant list has no leading whitespace. -/
theorem strip_id_dropWhile (l : List Char) (h : stripChars l = l) :
    l.dropWhile isSpace = l := by
  have h1 := dropWhile_length_le isSpace l
  have h2 := dropWhile_length_le isSpace (l.dropWhile isSpace).reverse
  have hlen : (stripChars l).length = l.length := by rw [h]
  unfold stripChars at hlen
  simp only [List.length_reverse] at hlen
  simp only [List.length_reverse] at h2
  apply dropWhile_eq_self_of_length
  omega

/-- A strip-invariant list has no trailing whitespace. -/
theorem strip_id_dropWhile_reverse (l : List Char) (h : stripChars l = l) :
    l.reverse.dropWhile isSpace = l.reverse := by
  have hd := strip_id_dropWhile l h
  unfold stripChars at h
  rw [hd] at h
  have hrev := congrArg List.reverse h
  simpa using hrev

/-- Appending a newline to a nonempty strip-invariant list strips back to the
original list. -/
theorem stripChars_append_newline (l : List Char) (hne : l ≠ [])
    (h : stripChars l = l) : stripChars (l ++ ['\n']) = l := by
  obtain ⟨c, cs, rfl⟩ : ∃ c cs, l = c :: cs := by
    cases l with
    | nil => exact absurd rfl hne
    | cons c cs => exact ⟨c, cs, rfl⟩
  have hd := strip_id_dropWhile _ h
  have hr := strip_id_dropWhile_reverse _ h
  have hc : ¬ isSpace c = true := by
    intro hp
    rw [List.dropWhile_cons] at hd
    simp only [hp, if_true] at hd
    have hle := dropWhile_length_le isSpace cs
    have hlen := congrArg List.length hd
    simp at hlen
    omega
  unfold stripChars
  have h1 : ((c :: cs) ++ ['\n']).dropWhile isSpace = (c :: cs) ++ ['\n'] := by
    rw [List.cons_append, List.dropWhile_cons]
    simp [hc]
  rw [h1]
  have h2 : ((c :: cs) ++ ['\n']).reverse = '\n' :: (c :: cs).reverse := by
    simp
  rw [h2, List.dropWhile_cons]
  have h3 : isSpace '\n' = true := by decide
  simp only [h3, if_true]
  rw [hr]
  simp

/-- A string containing `github.com` is nonempty. -/
theorem strContains_ne_empty (u : String)
    (h : strContains u "github.com" = true) : u ≠ "" := by
  intro he
  subst he
  exact absurd h (by decide)

/-- Stripping a nonempty strip-invariant string with a newline appended
yields the string back. -/
theorem pyStrip_append_newline (u : String) (hne : u ≠ "")
    (h : pyStrip u = u) : pyStrip (u ++ "\n") = u := by
  have hdata : stripChars u.data = u.data := congrArg String.data h
  have hned : u.data ≠ [] := by
    intro hd
    apply hne
    apply string_eq_of_data
    simpa using hd
  have hnl := stripChars_append_newline u.data hned hdata
  have hap : (u ++ "\n").data = u.data ++ ['\n'] := by
    cases u with
    | mk d => rfl
  show String.mk (stripChars (u ++ "\n").data) = u
  rw [hap, hnl]

/-- A migrated line `u ++ "\n"` (with `u` strip-invariant and containing
`github.com`) is kept exactly as `u`, with no events. -/
theorem processLine_github_line (u : String) (e : DriveEnv)
    (hstrip : pyStrip u = u) (hgh : strContains u "github.com" = true) :
    processLine (u ++ "\n") e = ([u], []) := by
  have hne := strContains_ne_empty u hgh
  have hs := pyStrip_append_newline u hne hstrip
  have hgs : strContains (pyStrip (u ++ "\n")) "github.com" = true := by
    rw [hs]; exact hgh
  rw [processLine_github_keep (u ++ "\n") e hgs, hs]

/-- Over a fully migrated line list, the rewritten content is the
concatenation of the original lines. -/
theorem runLinesGo_migrated (env : Nat → DriveEnv) :
    ∀ (lines : List String) (i : Nat),
      (∀ l ∈ lines, ∃ u, l = u ++ "\n" ∧ pyStrip u = u ∧
        strContains u "github.com" = true) →
      joinAll (((runLinesGo env lines i).1).map (fun s => s ++ "\n")) =
        joinAll lines := by
  intro lines
  induction lines with
  | nil => intro i _; rfl
  | cons l ls ih =>
    intro i hall
    obtain ⟨u, rfl, hstrip, hgh⟩ := hall l (List.mem_cons_self l ls)
    have hrest := ih (i + 1) (fun l2 hl2 => hall l2 (List.mem_cons_of_mem _ hl2))
    simp only [runLinesGo, processLine_github_line u (env i) hstrip hgh,
      List.singleton_append, List.map, joinAll]
    rw [hrest]

/-- Flattening the `readlines` split of a character list gives it back. -/
theorem joinAll_splitKeep :
    ∀ (l acc : List Char),
      (joinAll ((splitKeepAux acc l).map String.mk)).data = acc.reverse ++ l := by
  intro l
  induction l with
  | nil =>
    intro acc
    by_cases h : acc.isEmpty = true
    · have hacc : acc = [] := by simpa [List.isEmpty_iff] using h
      subst hacc
      simp [splitKeepAux, joinAll]
    · simp only [splitKeepAux, h, if_false, List.map, joinAll]
      show (String.mk acc.reverse ++ "").data = acc.reverse ++ []
      cases hrev : acc.reverse with
      | nil => simp
      | cons c cs => simp [String.mk]
  | cons c cs ih =>
    intro acc
    by_cases h : c = '\n'
    · subst h
      simp only [splitKeepAux, if_pos rfl, List.map, joinAll]
      show (String.mk (acc.reverse ++ ['\n']) ++
        joinAll ((splitKeepAux [] cs).map String.mk)).data =
        acc.reverse ++ '\n' :: cs
      have hrec := ih []
      simp only [List.reverse_nil, List.nil_append] at hrec
      cases hj : joinAll ((splitKeepAux [] cs).map String.mk) with
      | mk d =>
        rw [hj] at hrec
        simp at hrec
        show acc.reverse ++ ['\n'] ++ d = acc.reverse ++ '\n' :: cs
        rw [hrec]
        simp
    · simp only [splitKeepAux, h, if_false]
      have hrec := ih (c :: acc)
      rw [hrec]
      simp

/-- `readlines` followed by concatenation reconstructs the file content. -/
theorem joinAll_pyReadLines (content : String) :
    joinAll (pyReadLines content) = content := by
  apply string_eq_of_data
  have h := joinAll_splitKeep content.data []
  simpa [pyReadLines] using h

/-- C4 (counterexample): a one-line file whose single line is a GitHub URL
but has no terminating newline is not left intact — the run rewrites it with
a trailing newline appended, so the content after the run differs from the
content before. -/
theorem c4_counterexample :
    pyReadLines "https://github.com/u/r" = ["https://github.com/u/r"] ∧
    pyStrip "https://github.com/u/r" = "https://github.com/u/r" ∧
    strContains "https://github.com/u/r" "github.com" = true ∧
    runOutput "https://github.com/u/r" envNone ≠ "https://github.com/u/r" := by
  exact ⟨by decide, by decide, by decide, by decide⟩

/-- C4 (amended): a second run over an already-fully-migrated file is the
identity provided the file ends with a newline — when every line is a
GitHub URL line terminated by a newline (strip-invariant and containing
`github.com`), the rewritten content equals the original content. -/
theorem c4_migrated_run_identity (content : String) (env : Nat → DriveEnv)
    (h : ∀ l ∈ pyReadLines content,
      ∃ u, l = u ++ "\n" ∧ pyStrip u = u ∧
        strContains u "github.com" = true) :
    runOutput content env = content := by
  unfold runOutput runLines
  rw [runLinesGo_migrated env (pyReadLines content) 0 h]
  exact joinAll_pyReadLines content

/-- C4 witness: a newline-terminated fully migrated file is rewritten to
itself. -/
theorem c4_migrated_run_identity_witness :
    runOutput "https://github.com/a\n" envNone = "https://github.com/a\n" := by
  apply c4_migrated_run_identity
  intro l hl
  have hlines : pyReadLines "https://github.com/a\n" = ["https://github.com/a\n"] := by
    decide
  rw [hlines] at hl
  have hone : l = "https://github.com/a\n" := by simpa using hl
  subst hone
  exact ⟨"https://github.com/a", by decide, by decide, by decide⟩

end DriveUploader

